import Mathlib

/-!
Shallow embedding of `dexarm_controller.py` (class `DexArmController`).

Modelling conventions:
* Python floats are modelled as `Rat` (`Coord`); the `:.2f` wire formatting of
  coordinates is not modelled, G-code commands are modelled by the inductive
  `Cmd` carrying the coordinate payload instead of the formatted string.
* The serial link is modelled by traces: a call that sends G-code through
  `send_command` contributes a `Cmd` to the returned trace.  `time.sleep`
  calls, which have no observable effect on the traces, are omitted except in
  `read_encoder_position`, whose specification mentions its sleeps.
* Callbacks are modelled as trace events (`Event.progress`); the purely
  textual `status_callback` lines are not modelled, no claim refers to them.
* The JSON text layer (`json.dump`/`json.load`) round-trips JSON values
  losslessly, so persistence is modelled at the level of `Json` values: a file
  is `Option Json`, `none` standing for a missing file or one whose parse
  raises (both caught by `load_positions`, which then returns the default).
* Python `int` indices are modelled as `Int`, and indexing a list with a
  negative index follows Python semantics (wrap from the end, `IndexError`
  below `-len`); an uncaught `IndexError` is modelled by `Option.none`.
-/

namespace DexArm

/-- Coordinates (Python floats) are modelled as rationals. -/
abbrev Coord := Rat

/-- A taught position: Cartesian coordinates plus the optional raw encoder
replay token captured at teach time (`None` in Python is `none`). -/
structure Position where
  x : Coord
  y : Coord
  z : Coord
  encoder : Option String
deriving DecidableEq

/-- The persisted structure held in `self.positions`:
`{'pick': ..., 'safe_z': ..., 'hooks': [...]}`. -/
structure TaughtSet where
  pick : Option Position
  safe_z : Coord
  hooks : List Position
deriving DecidableEq

/-- The `default` dict of `load_positions`:
`{'pick': None, 'safe_z': 0, 'hooks': []}`. -/
def defaultPositions : TaughtSet := ⟨none, 0, []⟩

/-! ### String helpers mirroring the Python string operations used. -/

/-- Boolean prefix test on character lists. -/
def charsPrefixOf : List Char → List Char → Bool
  | [], _ => true
  | _ :: _, [] => false
  | a :: as, b :: bs => a == b && charsPrefixOf as bs

/-- Boolean substring test on character lists (`pat` occurs in the list). -/
def charsSub (pat : List Char) : List Char → Bool
  | [] => charsPrefixOf pat []
  | c :: cs => charsPrefixOf pat (c :: cs) || charsSub pat cs

/-- Python `pat in s` (substring containment). -/
def strHasSub (s pat : String) : Bool := charsSub pat.toList s.toList

/-- Python `s.startswith(pat)`. -/
def strStarts (s pat : String) : Bool := charsPrefixOf pat.toList s.toList

/-- Python `c in s` for a single character. -/
def strHasChar (s : String) (c : Char) : Bool := s.toList.contains c

/-- Splitting a character list on whitespace runs, dropping empty pieces
(`cur` accumulates the current token in reverse). -/
def wsSplitAux : List Char → List Char → List (List Char)
  | cur, [] => if cur.isEmpty then [] else [cur.reverse]
  | cur, c :: cs =>
    if c.isWhitespace then
      if cur.isEmpty then wsSplitAux [] cs
      else cur.reverse :: wsSplitAux [] cs
    else wsSplitAux (c :: cur) cs

/-- Python `s.split()` with no argument: split on whitespace runs, dropping
empty pieces. -/
def pySplitWs (s : String) : List String :=
  (wsSplitAux [] s.toList).map List.asString

/-- Splitting a character list at every occurrence of `sep`, keeping empty
pieces. -/
def sepSplitAux (sep : Char) : List Char → List Char → List (List Char)
  | cur, [] => [cur.reverse]
  | cur, c :: cs =>
    if c = sep then cur.reverse :: sepSplitAux sep [] cs
    else sepSplitAux sep (c :: cur) cs

/-- Python `s.split(sep)` for a one-character separator (used with `':'`). -/
def pySplitOn (sep : Char) (s : String) : List String :=
  (sepSplitAux sep [] s.toList).map List.asString

/-- Python `s.strip()`: drop leading and trailing whitespace. -/
def pyStrip (s : String) : String :=
  (((s.toList.dropWhile Char.isWhitespace).reverse.dropWhile
      Char.isWhitespace).reverse).asString

/-- Joining tokens with single spaces (`' '.join(...)`). -/
def joinSpace : List String → String
  | [] => ""
  | [t] => t
  | t :: rest => t ++ " " ++ joinSpace rest

/-- Python `' '.join(s.split())` as used in `move_to_encoder_position`. -/
def normWs (s : String) : String := joinSpace (pySplitWs s)

/-! ### The wire commands issued through `send_command`. -/

/-- G-code commands sent by the controller.  `g1xyz` is
`G1 F.. X.. Y.. Z..`, `g1z` is the Z-only form `G1 F.. Z..`;
`raw` carries a verbatim line (the `M894 ...` encoder replay). -/
inductive Cmd
  | g1xyz (f x y z : Coord)
  | g1z (f z : Coord)
  | m400
  | m1000
  | m1002
  | m1003
  | m2000
  | m1112
  | m114
  | raw (line : String)
deriving DecidableEq

/-- Is the command a Cartesian motion command (`G1 ...`)? -/
def isMotionCmd : Cmd → Bool
  | .g1xyz _ _ _ _ => true
  | .g1z _ _ => true
  | _ => false

/-- Observable events of a cycle run: a G-code command handed to
`send_command`, or an invocation of the progress callback. -/
inductive Event
  | cmd (c : Cmd)
  | progress (done total : Nat)
deriving DecidableEq

/-- Is the event a progress-callback invocation? -/
def isProgressEv : Event → Bool
  | .progress _ _ => true
  | .cmd _ => false

/-! ### Transport: `send_command` and `move_to` (runtime state). -/

/-- The runtime state relevant to `send_command`/`move_to`: the
`self.serial is None or not self.connected` guard is collapsed into
`connected`, and `current_pos` is the tracked Cartesian position. -/
structure ArmState where
  connected : Bool
  current_pos : Coord × Coord × Coord
deriving DecidableEq

/-- Model of `send_command`: when not connected it returns `None` and
transmits nothing; when connected the command goes out and the `'ok'`-wait
loop eventually returns the acknowledgement line (modelled as `"ok"`). -/
def send_command (s : ArmState) (c : Cmd) : Option String × List Cmd :=
  if s.connected then (some "ok", [c]) else (none, [])

/-- Model of `move_to`: sends `G1 F.. X.. Y.. Z..` through `send_command`
and then unconditionally overwrites `current_pos` with the target. -/
def move_to (s : ArmState) (f x y z : Coord) : ArmState × List Cmd :=
  ({ s with current_pos := (x, y, z) }, (send_command s (Cmd.g1xyz f x y z)).2)

/-! ### Persistence: `load_positions` / `save_positions`. -/

/-- JSON values, as far as this configuration file needs them. -/
inductive Json
  | null
  | num (q : Rat)
  | str (s : String)
  | arr (elems : List Json)
  | obj (fields : List (String × Json))

/-- Lookup of a key in a JSON object's field list. -/
def lookupField : List (String × Json) → String → Option Json
  | [], _ => none
  | (k, v) :: rest, key => if k = key then some v else lookupField rest key

/-- The JSON image of a taught `Position` dict. -/
def Position.toJson (p : Position) : Json :=
  .obj [("x", .num p.x), ("y", .num p.y), ("z", .num p.z),
        ("encoder", match p.encoder with | none => .null | some s => .str s)]

/-- Reading a `Position` back out of its JSON image (the shape the rest of
the controller assumes when it indexes the loaded dict). -/
def Position.fromJson : Json → Option Position
  | .obj fields =>
    match lookupField fields "x", lookupField fields "y",
          lookupField fields "z", lookupField fields "encoder" with
    | some (.num x), some (.num y), some (.num z), some enc =>
      match enc with
      | .null => some ⟨x, y, z, none⟩
      | .str s => some ⟨x, y, z, some s⟩
      | _ => none
    | _, _, _, _ => none
  | _ => none

/-- Reading back a list of positions (the `hooks` array). -/
def hooksFromJson : List Json → Option (List Position)
  | [] => some []
  | j :: rest =>
    match Position.fromJson j, hooksFromJson rest with
    | some p, some ps => some (p :: ps)
    | _, _ => none

/-- The JSON image of the whole `self.positions` dict, as written by
`json.dump` in `save_positions`. -/
def TaughtSet.toJson (ts : TaughtSet) : Json :=
  .obj [("pick", match ts.pick with | none => .null | some p => p.toJson),
        ("safe_z", .num ts.safe_z),
        ("hooks", .arr (ts.hooks.map Position.toJson))]

/-- Reading a `TaughtSet` back out of its JSON image. -/
def TaughtSet.fromJson : Json → Option TaughtSet
  | .obj fields =>
    match lookupField fields "pick", lookupField fields "safe_z",
          lookupField fields "hooks" with
    | some pickJ, some (.num sz), some (.arr hs) =>
      match (match pickJ with
             | .null => some none
             | j => (Position.fromJson j).map some),
            hooksFromJson hs with
      | some pk, some hooks => some ⟨pk, sz, hooks⟩
      | _, _ => none
    | _, _, _ => none
  | _ => none

/-- Model of `save_positions`: the file content written is the JSON image of
`self.positions`. -/
def save_positions (ts : TaughtSet) : Json := ts.toJson

/-- Model of `load_positions`: a missing file, or one whose `json.load`
raises, is `none` and falls back to the default `{pick: None, safe_z: 0,
hooks: []}`; otherwise the parsed JSON value is returned as-is (Python does
no validation here). -/
def load_positions (file : Option Json) : Json :=
  match file with
  | some j => j
  | none => defaultPositions.toJson

/-! ### Position store operations. -/

/-- Model of `delete_hook`: `if 0 <= index < len(hooks): del hooks[index]`,
otherwise nothing happens (the subsequent `save_positions` call is modelled
separately by `save_positions`). -/
def delete_hook (ts : TaughtSet) (index : Int) : TaughtSet :=
  if 0 ≤ index ∧ index < (ts.hooks.length : Int) then
    { ts with hooks := ts.hooks.eraseIdx index.toNat }
  else ts

/-- The truthiness test `p.get('encoder')`: `None` and the empty string are
falsy; a non-empty token is returned. -/
def encoderToken (p : Position) : Option String :=
  match p.encoder with
  | some s => if s = "" then none else some s
  | none => none

/-- Model of `move_to_encoder_position`: guard
`encoder_string and ('X' in encoder_string or startswith('M894'))`; on
success it normalises whitespace, prepends `M894 ` when missing, sends the
replay line, `M400`, and then `get_position`, which sends `M114`. -/
def move_to_encoder_position (encoder_string : String) : List Cmd × Bool :=
  if (encoder_string != "") &&
      (strHasChar encoder_string 'X' || strStarts encoder_string "M894") then
    let cleaned := normWs encoder_string
    let full := if strStarts cleaned "M894" then cleaned else "M894 " ++ cleaned
    ([Cmd.raw full, Cmd.m400, Cmd.m114], true)
  else ([], false)

/-- Model of `go_to_pick` (command trace): no pick taught means no command;
a truthy encoder token goes through `move_to_encoder_position`, otherwise a
Cartesian `move_to(p.x, p.y, p.z)` is issued. -/
def go_to_pick (ts : TaughtSet) (f : Coord) : List Cmd :=
  match ts.pick with
  | none => []
  | some p =>
    match encoderToken p with
    | some enc => (move_to_encoder_position enc).1
    | none => [Cmd.g1xyz f p.x p.y p.z]

/-- Model of `go_to_hook` (command trace): guarded by
`index < len(hooks)` only, so a negative index follows Python list
indexing; `none` models an uncaught `IndexError` (`index < -len`). -/
def go_to_hook (ts : TaughtSet) (f : Coord) (index : Int) : Option (List Cmd) :=
  if index < (ts.hooks.length : Int) then
    let j : Int := if index < 0 then index + ts.hooks.length else index
    if 0 ≤ j then
      match ts.hooks[j.toNat]? with
      | some p =>
        some (match encoderToken p with
              | some enc => (move_to_encoder_position enc).1
              | none => [Cmd.g1xyz f p.x p.y p.z])
      | none => none
    else none
  else some []

/-! ### Position queries. -/

/-- One axis field of the `M114` response: Python
`float(parts[k].split(':')[1])`; any raised exception is `none`.  The float
parser itself is a parameter of the model. -/
def axis_field (parseFloat : String → Option Coord) :
    Option String → Option Coord
  | none => none
  | some part => ((pySplitOn ':' part)[1]?).bind parseFloat

/-- Parsing the `M114` response line `"X:0.00 Y:300.00 Z:0.00 E:0.00"`:
`response.split()` then the three colon-delimited axis fields.  `none` means
the Python `try` block raised before `current_pos` was assigned (the
assignment comes only after all three parses succeed). -/
def parse_m114 (parseFloat : String → Option Coord) (response : String) :
    Option (Coord × Coord × Coord) :=
  let parts := pySplitWs response
  match axis_field parseFloat parts[0]?, axis_field parseFloat parts[1]?,
        axis_field parseFloat parts[2]? with
  | some x, some y, some z => some (x, y, z)
  | _, _, _ => none

/-- Model of `get_position` (after the `M114` send): `response = none`
models a `readline`/decode failure (also caught); on any failure the old
`current_pos` is returned unchanged, and the function is total (the bare
`except` means it never raises). -/
def get_position (parseFloat : String → Option Coord)
    (response : Option String) (current_pos : Coord × Coord × Coord) :
    Coord × Coord × Coord :=
  match response with
  | none => current_pos
  | some r =>
    match parse_m114 parseFloat r with
    | some p => p
    | none => current_pos

/-! ### Encoder query: `read_encoder_position`. -/

/-- Raw serial-level events of `read_encoder_position`: a buffered line
consumed by `readline`, a raw `write`, or a `time.sleep`. -/
inductive SerialEv
  | read (line : String)
  | write (data : String)
  | sleep
deriving DecidableEq

/-- The match condition of the poll loop:
`'M894' in response or ('X' in response and 'Y' in response and 'Z' in
response)`. -/
def encMatch (r : String) : Bool :=
  strHasSub r "M894" ||
    (strHasChar r 'X' && strHasChar r 'Y' && strHasChar r 'Z')

/-- Whether the `k`-th poll (an available decoded line, or nothing) satisfies
the loop's return condition after `strip()`. -/
def encAttempt : Option String → Bool
  | none => false
  | some line => encMatch (pyStrip line)

/-- The `for _ in range(20)` poll loop.  `polls k` is the line available (if
any) at the `k`-th iteration; a decode exception is absorbed by the bare
`except: pass` and behaves like a non-matching line.  An available line is
consumed either way; an empty poll sleeps. -/
def enc_poll (polls : Nat → Option String) (k : Nat) :
    Nat → List SerialEv × Option String
  | 0 => ([], none)
  | n + 1 =>
    match polls k with
    | some line =>
      if encMatch (pyStrip line) then ([SerialEv.read line], some (pyStrip line))
      else
        let rest := enc_poll polls (k + 1) n
        (SerialEv.read line :: rest.1, rest.2)
    | none =>
      let rest := enc_poll polls (k + 1) n
      (SerialEv.sleep :: rest.1, rest.2)

/-- Model of `read_encoder_position`: drain every stale buffered line, sleep,
write `M893` raw, sleep, then poll up to 20 times; exhausting the attempts
returns `None` (`none`). -/
def read_encoder_position (stale : List String) (polls : Nat → Option String) :
    List SerialEv × Option String :=
  let loop := enc_poll polls 0 20
  (stale.map SerialEv.read ++
    SerialEv.sleep :: SerialEv.write "M893" :: SerialEv.sleep :: loop.1,
   loop.2)

/-! ### The pick/place cycle. -/

/-- The command sequence of `pick_blade` when a pick is taught: above-pick,
wait, suction on, lower to pick depth, wait, raise to safe Z, wait. -/
def pick_cmds (f safe_z : Coord) (pick : Position) : List Cmd :=
  [Cmd.g1xyz f pick.x pick.y safe_z, Cmd.m400,
   Cmd.m1000,
   Cmd.g1z f pick.z, Cmd.m400,
   Cmd.g1z f safe_z, Cmd.m400]

/-- Model of `pick_blade`: `if not pick: return False`, otherwise the fixed
Cartesian sequence of `pick_cmds` and `True`. -/
def pick_blade (ts : TaughtSet) (f : Coord) : List Cmd × Bool :=
  match ts.pick with
  | none => ([], false)
  | some pick => (pick_cmds f ts.safe_z pick, true)

/-- The command sequence of `place_blade` for a resolved hook: above-hook,
wait, lower to hook depth, wait, release air, stop pump, raise to safe Z,
wait. -/
def place_cmds (f safe_z : Coord) (hook : Position) : List Cmd :=
  [Cmd.g1xyz f hook.x hook.y safe_z, Cmd.m400,
   Cmd.g1z f hook.z, Cmd.m400,
   Cmd.m1002, Cmd.m1003,
   Cmd.g1z f safe_z, Cmd.m400]

/-- Model of `place_blade`: only `hook_index >= len(hooks)` is rejected with
`False`; then `hooks[hook_index]` follows Python indexing, so a negative
index wraps from the end and an index below `-len` raises `IndexError`
(modelled `none`). -/
def place_blade (ts : TaughtSet) (f : Coord) (hook_index : Int) :
    Option (List Cmd × Bool) :=
  if (ts.hooks.length : Int) ≤ hook_index then some ([], false)
  else
    let j : Int := if hook_index < 0 then hook_index + ts.hooks.length
                   else hook_index
    if 0 ≤ j then
      match ts.hooks[j.toNat]? with
      | some hook => some (place_cmds f ts.safe_z hook, true)
      | none => none
    else none

/-- The `for i in range(num_hooks)` loop of `run_full_cycle`.  `stops i` is
the value of `self.stop_requested` read at iteration `i`'s boundary check.
The pause spin-wait emits no command and both of its exits (resume, or stop —
`stop_cycle` also clears `pause_requested`) fall through to the same point,
so it does not appear in the trace.  A pick or place failure breaks the loop;
`place_blade` cannot fail here since `0 ≤ i < num_hooks`. -/
def cycle_iters (ts : TaughtSet) (f : Coord) (stops : Nat → Bool)
    (i : Nat) : Nat → List Event
  | 0 => []
  | r + 1 =>
    if stops i then []
    else
      match pick_blade ts f with
      | (pcmds, false) => pcmds.map Event.cmd
      | (pcmds, true) =>
        match place_blade ts f i with
        | some (plcmds, true) =>
          pcmds.map Event.cmd ++ plcmds.map Event.cmd ++
            Event.progress (i + 1) ts.hooks.length ::
              cycle_iters ts f stops (i + 1) r
        | some (plcmds, false) => pcmds.map Event.cmd ++ plcmds.map Event.cmd
        | none => pcmds.map Event.cmd

/-- Model of `run_full_cycle`: `M2000`, the loop over `range(num_hooks)`,
then unconditionally `suction_off` (`M1003`) and `go_home` (`M1112`).  The
second component is the final value of `is_running` (set `True` on entry and
`False` after cleanup). -/
def run_full_cycle (ts : TaughtSet) (f : Coord) (stops : Nat → Bool) :
    List Event × Bool :=
  (Event.cmd Cmd.m2000 :: cycle_iters ts f stops 0 ts.hooks.length ++
     [Event.cmd Cmd.m1003, Event.cmd Cmd.m1112],
   false)

/-- One completed pick/place pair of the cycle, hook `i`, with its progress
report. -/
def pair_events (ts : TaughtSet) (f : Coord) (i : Nat) : List Event :=
  (pick_blade ts f).1.map Event.cmd ++
    ((place_blade ts f i).getD ([], false)).1.map Event.cmd ++
    [Event.progress (i + 1) ts.hooks.length]

/-! ### Helper lemmas shared by the claim theorems. -/

/-- A taught pick resolves `pick_blade` to its fixed command sequence. -/
lemma pick_blade_taught (ts : TaughtSet) (f : Coord) (p : Position)
    (hp : ts.pick = some p) :
    pick_blade ts f = (pick_cmds f ts.safe_z p, true) := by
  simp [pick_blade, hp]

/-- A valid natural hook index resolves `place_blade` to the fixed command
sequence for that hook. -/
lemma place_blade_nat (ts : TaughtSet) (f : Coord) (i : Nat) (hook : Position)
    (hh : ts.hooks[i]? = some hook) :
    place_blade ts f i = some (place_cmds f ts.safe_z hook, true) := by
  have hi : i < ts.hooks.length := by
    by_contra hge
    rw [List.getElem?_eq_none (by omega)] at hh
    exact Option.noConfusion hh
  have h1 : ¬ ((ts.hooks.length : Int) ≤ (i : Int)) := by omega
  have h2 : ¬ ((i : Int) < 0) := by omega
  simp only [place_blade, if_neg h1, h2, if_false]
  rw [if_pos (by omega : (0 : Int) ≤ (i : Int))]
  rw [show ((i : Int)).toNat = i from by omega, hh]

/-- A list prefixed by itself passes the prefix test. -/
lemma charsPrefixOf_append (pre rest : List Char) :
    charsPrefixOf pre (pre ++ rest) = true := by
  induction pre with
  | nil => rfl
  | cons c cs ih => simp [charsPrefixOf, ih]

/-- Prepending `"M894 "` yields a line starting with `M894`. -/
lemma strStarts_m894_prepend (t : String) :
    strStarts ("M894 " ++ t) "M894" = true := by
  have hdata : ("M894 " ++ t).toList = 'M' :: '8' :: '9' :: '4' :: ' ' :: t.toList := by
    simp [String.toList, String.data_append]
  rw [strStarts, hdata]
  simp [charsPrefixOf]

/-! ### C10 -/

/-- C10: after `move_to(x, y, z)` the tracked `current_pos` is exactly the
commanded target, even when not connected, in which case `send_command`
returns `None` and nothing is transmitted. -/
theorem move_to_sets_current_pos (s : ArmState) (f x y z : Coord) :
    (move_to s f x y z).1.current_pos = (x, y, z) ∧
    (s.connected = false →
      (send_command s (Cmd.g1xyz f x y z)).1 = none ∧
      (move_to s f x y z).2 = []) := by
  refine ⟨rfl, fun h => ?_⟩
  simp [move_to, send_command, h]

/-- Witness for C10 at a disconnected state. -/
theorem move_to_sets_current_pos_witness :
    (move_to ⟨false, (0, 300, 0)⟩ 3000 1 2 3).1.current_pos = (1, 2, 3) ∧
    ((send_command ⟨false, (0, 300, 0)⟩ (Cmd.g1xyz 3000 1 2 3)).1 = none ∧
      (move_to ⟨false, (0, 300, 0)⟩ 3000 1 2 3).2 = []) :=
  ⟨(move_to_sets_current_pos ⟨false, (0, 300, 0)⟩ 3000 1 2 3).1,
   (move_to_sets_current_pos ⟨false, (0, 300, 0)⟩ 3000 1 2 3).2 rfl⟩

/-! ### C7 -/

/-- C7: when the `M114` response does not parse as three colon-delimited
axis fields (or the read itself fails), `get_position` leaves `current_pos`
exactly as it was and returns that unchanged value; being a total function,
the model raises nothing, mirroring the bare `except` in the source. -/
theorem get_position_parse_failure (parseF : String → Option Coord)
    (response : Option String) (pos : Coord × Coord × Coord)
    (h : response.bind (parse_m114 parseF) = none) :
    get_position parseF response pos = pos := by
  cases response with
  | none => rfl
  | some r =>
    replace h : parse_m114 parseF r = none := h
    simp [get_position, h]

/-- Witness for C7 on a malformed response line. -/
theorem get_position_parse_failure_witness :
    get_position (fun _ => none) (some "hello world") (1, 2, 3) = (1, 2, 3) :=
  get_position_parse_failure (fun _ => none) (some "hello world") (1, 2, 3)
    (by decide)

/-! ### C4 -/

/-- C4: for a valid index, `delete_hook` removes exactly the element at that
index (earlier elements stay, later elements shift down by one, the length
drops by one, pick and safe_z are untouched); for any out-of-range integer
index, including negatives, the whole `TaughtSet` is unchanged and no error
is raised (the model is total). -/
theorem delete_hook_spec (ts : TaughtSet) (i : Int) :
    ((0 ≤ i ∧ i < (ts.hooks.length : Int)) →
      (delete_hook ts i).hooks.length + 1 = ts.hooks.length ∧
      (∀ j : Nat, (j : Int) < i →
        (delete_hook ts i).hooks[j]? = ts.hooks[j]?) ∧
      (∀ j : Nat, i ≤ (j : Int) →
        (delete_hook ts i).hooks[j]? = ts.hooks[j + 1]?) ∧
      (delete_hook ts i).pick = ts.pick ∧
      (delete_hook ts i).safe_z = ts.safe_z) ∧
    (¬ (0 ≤ i ∧ i < (ts.hooks.length : Int)) → delete_hook ts i = ts) := by
  constructor
  · intro h
    have hn : i.toNat < ts.hooks.length := by omega
    simp only [delete_hook, if_pos h]
    refine ⟨?_, ?_, ?_, by trivial, by trivial⟩
    · have := List.length_eraseIdx_of_lt hn
      omega
    · intro j hj
      exact List.getElem?_eraseIdx_of_lt _ _ _ (by omega)
    · intro j hj
      exact List.getElem?_eraseIdx_of_ge _ _ _ (by omega)
  · intro h
    simp [delete_hook, if_neg h]

/-- Witness for C4: deleting index 1 of a two-hook store, and a no-op
delete at index `-1`. -/
theorem delete_hook_spec_witness :
    (delete_hook ⟨none, 0, [⟨1, 1, 1, none⟩, ⟨2, 2, 2, none⟩]⟩ 1).hooks[0]? =
      some ⟨1, 1, 1, none⟩ ∧
    delete_hook ⟨none, 0, [⟨1, 1, 1, none⟩, ⟨2, 2, 2, none⟩]⟩ (-1) =
      ⟨none, 0, [⟨1, 1, 1, none⟩, ⟨2, 2, 2, none⟩]⟩ := by
  constructor
  · have h := ((delete_hook_spec ⟨none, 0, [⟨1, 1, 1, none⟩, ⟨2, 2, 2, none⟩]⟩
      1).1 (by decide)).2.1 0 (by decide)
    rw [h]
    decide
  · exact (delete_hook_spec ⟨none, 0, [⟨1, 1, 1, none⟩, ⟨2, 2, 2, none⟩]⟩
      (-1)).2 (by decide)

/-! ### C5 (corrected) -/

/-- C5 counterexample: `place_blade(-1)` on a one-hook store.  The claim
says every negative index returns failure with no command issued; the code
does not reject negative indices, so Python list indexing wraps to the last
hook, the full place sequence is issued and `True` is returned. -/
theorem place_blade_negative_index_counterexample :
    place_blade ⟨none, 5, [⟨1, 2, 3, none⟩]⟩ 3000 (-1) =
      some ([Cmd.g1xyz 3000 1 2 5, Cmd.m400, Cmd.g1z 3000 3, Cmd.m400,
             Cmd.m1002, Cmd.m1003, Cmd.g1z 3000 5, Cmd.m400], true) := by
  decide

/-- C5 amended: `place_blade` returns failure without issuing any command
exactly for `hook_index ≥ length`; a negative index wraps per Python list
indexing (placing on `hooks[length + hook_index]` when that is in range) and
raises `IndexError` (modelled `none`) below `-length`. -/
theorem place_blade_out_of_range (ts : TaughtSet) (f : Coord) (i : Int) :
    ((ts.hooks.length : Int) ≤ i → place_blade ts f i = some ([], false)) ∧
    (i < 0 → 0 ≤ i + (ts.hooks.length : Int) →
      ∀ hook, ts.hooks[(i + (ts.hooks.length : Int)).toNat]? = some hook →
        place_blade ts f i = some (place_cmds f ts.safe_z hook, true)) ∧
    (i + (ts.hooks.length : Int) < 0 → place_blade ts f i = none) := by
  refine ⟨fun h => ?_, fun hneg hge hook hh => ?_, fun h => ?_⟩
  · simp [place_blade, if_pos h]
  · have hlt : ¬ ((ts.hooks.length : Int) ≤ i) := by omega
    simp only [place_blade, if_neg hlt, hneg, if_true, if_pos hge, hh]
  · have hlt : ¬ ((ts.hooks.length : Int) ≤ i) := by omega
    have hneg : i < 0 := by omega
    have hj : ¬ (0 ≤ i + (ts.hooks.length : Int)) := by omega
    simp only [place_blade, if_neg hlt, hneg, if_true, if_neg hj]

/-- Witness for C5's amended theorem: a too-large index fails cleanly, an
index below `-length` raises. -/
theorem place_blade_out_of_range_witness :
    place_blade ⟨none, 5, [⟨1, 2, 3, none⟩]⟩ 3000 7 = some ([], false) ∧
    place_blade ⟨none, 5, [⟨1, 2, 3, none⟩]⟩ 3000 (-2) = none :=
  ⟨(place_blade_out_of_range ⟨none, 5, [⟨1, 2, 3, none⟩]⟩ 3000 7).1
      (by decide),
   (place_blade_out_of_range ⟨none, 5, [⟨1, 2, 3, none⟩]⟩ 3000 (-2)).2.2
      (by decide)⟩

/-! ### C3 -/

/-- A taught `Position` reads back from its JSON image unchanged. -/
lemma position_fromJson_toJson (p : Position) :
    Position.fromJson p.toJson = some p := by
  cases p with
  | mk x y z enc =>
    cases enc <;>
      simp [Position.toJson, Position.fromJson, lookupField]

/-- The hooks array reads back from its JSON image unchanged. -/
lemma hooksFromJson_map (l : List Position) :
    hooksFromJson (l.map Position.toJson) = some l := by
  induction l with
  | nil => rfl
  | cons p rest ih => simp [hooksFromJson, position_fromJson_toJson, ih]

/-- C3: a saved `TaughtSet` (including a `null` pick and empty hooks)
reloads as the identical structure, and a missing or unparseable file makes
`load_positions` return the empty default `{pick: null, safe_z: 0,
hooks: []}` instead of failing. -/
theorem positions_round_trip (ts : TaughtSet) :
    load_positions (some (save_positions ts)) = save_positions ts ∧
    TaughtSet.fromJson (save_positions ts) = some ts ∧
    load_positions none = save_positions defaultPositions := by
  refine ⟨rfl, ?_, rfl⟩
  cases ts with
  | mk pick sz hooks =>
    cases pick with
    | none =>
      simp [save_positions, TaughtSet.toJson, TaughtSet.fromJson,
        lookupField, hooksFromJson_map]
    | some p =>
      have hp := position_fromJson_toJson p
      simp only [Position.toJson] at hp
      simp [save_positions, TaughtSet.toJson, TaughtSet.fromJson,
        lookupField, hooksFromJson_map, Position.toJson, hp]

/-! ### C2 -/

/-- C2: for a taught pick and a valid hook index, `pick_blade` followed by
`place_blade(i)` issues exactly this command sequence, whose Cartesian
motion commands are, in order: above-pick, pick-depth, above-pick at safe Z,
above-hook, hook-depth, above-hook at safe Z — with `M1000` strictly before
the lower-to-pick move and `M1002`/`M1003` strictly before the final raise
(both visible in the full sequence). -/
theorem pick_place_order (ts : TaughtSet) (f : Coord) (i : Nat)
    (p hook : Position) (hp : ts.pick = some p)
    (hh : ts.hooks[i]? = some hook) :
    (pick_blade ts f).1 ++ ((place_blade ts f i).getD ([], false)).1 =
      [Cmd.g1xyz f p.x p.y ts.safe_z, Cmd.m400, Cmd.m1000, Cmd.g1z f p.z,
       Cmd.m400, Cmd.g1z f ts.safe_z, Cmd.m400,
       Cmd.g1xyz f hook.x hook.y ts.safe_z, Cmd.m400, Cmd.g1z f hook.z,
       Cmd.m400, Cmd.m1002, Cmd.m1003, Cmd.g1z f ts.safe_z, Cmd.m400] ∧
    ((pick_blade ts f).1 ++
        ((place_blade ts f i).getD ([], false)).1).filter isMotionCmd =
      [Cmd.g1xyz f p.x p.y ts.safe_z, Cmd.g1z f p.z, Cmd.g1z f ts.safe_z,
       Cmd.g1xyz f hook.x hook.y ts.safe_z, Cmd.g1z f hook.z,
       Cmd.g1z f ts.safe_z] := by
  rw [pick_blade_taught ts f p hp, place_blade_nat ts f i hook hh]
  exact ⟨rfl, rfl⟩

/-- Witness for C2 on a concrete one-hook set. -/
theorem pick_place_order_witness :
    (pick_blade ⟨some ⟨10, 20, 5, none⟩, 50, [⟨30, 40, 5, none⟩]⟩ 3000).1 ++
      ((place_blade ⟨some ⟨10, 20, 5, none⟩, 50, [⟨30, 40, 5, none⟩]⟩
          3000 0).getD ([], false)).1 =
    [Cmd.g1xyz 3000 10 20 50, Cmd.m400, Cmd.m1000, Cmd.g1z 3000 5, Cmd.m400,
     Cmd.g1z 3000 50, Cmd.m400, Cmd.g1xyz 3000 30 40 50, Cmd.m400,
     Cmd.g1z 3000 5, Cmd.m400, Cmd.m1002, Cmd.m1003, Cmd.g1z 3000 50,
     Cmd.m400] :=
  (pick_place_order ⟨some ⟨10, 20, 5, none⟩, 50, [⟨30, 40, 5, none⟩]⟩ 3000 0
    ⟨10, 20, 5, none⟩ ⟨30, 40, 5, none⟩ rfl rfl).1

/-! ### C1 and C6: the cycle loop. -/

/-- Characterisation of the `run_full_cycle` loop when a pick is taught:
the executed iterations are an initial segment of the hook indices, cut at
the first boundary check that reads `stop_requested` as set. -/
lemma cycle_iters_run (ts : TaughtSet) (f : Coord) (stops : Nat → Bool)
    (p : Position) (hp : ts.pick = some p) :
    ∀ r i, i + r ≤ ts.hooks.length →
      ∃ m, m ≤ r ∧ (∀ j, j < m → stops (i + j) = false) ∧
        (m < r → stops (i + m) = true) ∧
        cycle_iters ts f stops i r =
          (List.range' i m).flatMap (pair_events ts f) := by
  intro r
  induction r with
  | zero =>
    intro i _
    exact ⟨0, Nat.le_refl 0, fun j hj => absurd hj (Nat.not_lt_zero j),
      fun h => absurd h (Nat.lt_irrefl 0), rfl⟩
  | succ r ih =>
    intro i hle
    by_cases hs : stops i = true
    · refine ⟨0, Nat.zero_le _,
        fun j hj => absurd hj (Nat.not_lt_zero j),
        fun _ => by simpa using hs, ?_⟩
      simp [cycle_iters, hs]
    · have hs' : stops i = false := by
        simpa using hs
      obtain ⟨m, hmr, hfalse, hstop, heq⟩ := ih (i + 1) (by omega)
      refine ⟨m + 1, by omega, ?_, ?_, ?_⟩
      · intro j hj
        cases j with
        | zero => simpa using hs'
        | succ j' =>
          rw [show i + (j' + 1) = (i + 1) + j' from by omega]
          exact hfalse j' (by omega)
      · intro hlt
        rw [show i + (m + 1) = (i + 1) + m from by omega]
        exact hstop (by omega)
      · have hi : i < ts.hooks.length := by omega
        have hh : ts.hooks[i]? = some ts.hooks[i] :=
          List.getElem?_eq_getElem hi
        simp only [cycle_iters, hs', Bool.false_eq_true, if_false,
          pick_blade_taught ts f p hp,
          place_blade_nat ts f i ts.hooks[i] hh, heq]
        rw [List.range'_succ]
        simp [pair_events, pick_blade_taught ts f p hp,
          place_blade_nat ts f i ts.hooks[i] hh]

/-- Commands contribute nothing to the progress-event stream. -/
lemma filter_progress_map_cmd (l : List Cmd) :
    (l.map Event.cmd).filter isProgressEv = [] := by
  induction l with
  | nil => rfl
  | cons c l ih => simp [List.filter_cons, isProgressEv, ih]

/-- One completed pair's contribution to the progress-event stream. -/
lemma pair_events_filter (ts : TaughtSet) (f : Coord) (i : Nat) :
    (pair_events ts f i).filter isProgressEv =
      [Event.progress (i + 1) ts.hooks.length] := by
  simp [pair_events, List.filter_append, filter_progress_map_cmd,
    isProgressEv]

/-- The progress-event stream of a run of completed pairs, in order. -/
lemma filter_progress_flatMap (ts : TaughtSet) (f : Coord) :
    ∀ l : List Nat,
      (l.flatMap (pair_events ts f)).filter isProgressEv =
        l.map (fun i => Event.progress (i + 1) ts.hooks.length) := by
  intro l
  induction l with
  | nil => rfl
  | cons a l ih =>
    simp [List.flatMap_cons, List.filter_append, pair_events_filter, ih]

/-- C1: with a taught pick (so every `pick_blade`/`place_blade` succeeds)
and stop/pause never requested, `run_full_cycle` over N hooks runs the
`M2000` prelude, exactly one pick/place pair per hook index 0..N-1 in store
order, reports progress `(1,N) … (N,N)` in that order, then turns suction
off (`M1003`), homes (`M1112`) and ends with `is_running = false`. -/
theorem run_full_cycle_uninterrupted (ts : TaughtSet) (f : Coord)
    (p : Position) (hp : ts.pick = some p) :
    run_full_cycle ts f (fun _ => false) =
      (Event.cmd Cmd.m2000 ::
        ((List.range ts.hooks.length).flatMap (pair_events ts f) ++
          [Event.cmd Cmd.m1003, Event.cmd Cmd.m1112]),
       false) ∧
    (run_full_cycle ts f (fun _ => false)).1.filter isProgressEv =
      (List.range ts.hooks.length).map
        (fun i => Event.progress (i + 1) ts.hooks.length) ∧
    (∀ i hook, ts.hooks[i]? = some hook →
      pair_events ts f i =
        (pick_cmds f ts.safe_z p).map Event.cmd ++
          (place_cmds f ts.safe_z hook).map Event.cmd ++
          [Event.progress (i + 1) ts.hooks.length]) := by
  obtain ⟨m, hmr, _, hstop, heq⟩ :=
    cycle_iters_run ts f (fun _ => false) p hp ts.hooks.length 0 (by omega)
  have hm : m = ts.hooks.length := by
    by_contra hne
    have := hstop (by omega)
    simp at this
  subst hm
  have htrace : run_full_cycle ts f (fun _ => false) =
      (Event.cmd Cmd.m2000 ::
        ((List.range ts.hooks.length).flatMap (pair_events ts f) ++
          [Event.cmd Cmd.m1003, Event.cmd Cmd.m1112]),
       false) := by
    simp [run_full_cycle, heq, List.range_eq_range']
  refine ⟨htrace, ?_, ?_⟩
  · rw [htrace]
    simp [List.filter_append, filter_progress_flatMap, isProgressEv]
  · intro i hook hh
    simp [pair_events, pick_blade_taught ts f p hp,
      place_blade_nat ts f i hook hh]

/-- Witness for C1 on a concrete two-hook set. -/
theorem run_full_cycle_uninterrupted_witness :
    run_full_cycle ⟨some ⟨10, 20, 5, none⟩, 50,
        [⟨30, 40, 5, none⟩, ⟨35, 40, 5, none⟩]⟩ 3000 (fun _ => false) =
      (Event.cmd Cmd.m2000 ::
        ((List.range 2).flatMap (pair_events ⟨some ⟨10, 20, 5, none⟩, 50,
            [⟨30, 40, 5, none⟩, ⟨35, 40, 5, none⟩]⟩ 3000) ++
          [Event.cmd Cmd.m1003, Event.cmd Cmd.m1112]),
       false) :=
  (run_full_cycle_uninterrupted ⟨some ⟨10, 20, 5, none⟩, 50,
    [⟨30, 40, 5, none⟩, ⟨35, 40, 5, none⟩]⟩ 3000 ⟨10, 20, 5, none⟩ rfl).1

/-- C6: once `stop_requested` is set (and stays set: `stops` is monotone —
nothing inside the cycle clears it, and `stop_cycle` clearing
`pause_requested` lets a pause spin-wait fall through), the loop runs no
further pick/place pair after the next boundary check that observes it
(`m ≤ k` pairs in total), and the suction-off (`M1003`) / home (`M1112`)
cleanup still runs, ending with `is_running = false`. -/
theorem run_full_cycle_stop (ts : TaughtSet) (f : Coord) (p : Position)
    (stops : Nat → Bool) (k : Nat) (hp : ts.pick = some p)
    (mono : ∀ a b, a ≤ b → stops a = true → stops b = true)
    (hk : stops k = true) :
    ∃ m, m ≤ k ∧ m ≤ ts.hooks.length ∧
      run_full_cycle ts f stops =
        (Event.cmd Cmd.m2000 ::
          ((List.range m).flatMap (pair_events ts f) ++
            [Event.cmd Cmd.m1003, Event.cmd Cmd.m1112]),
         false) := by
  obtain ⟨m, hmr, hfalse, _, heq⟩ :=
    cycle_iters_run ts f stops p hp ts.hooks.length 0 (by omega)
  refine ⟨m, ?_, hmr, by simp [run_full_cycle, heq, List.range_eq_range']⟩
  by_contra hgt
  have hkm : stops k = false := by
    have := hfalse k (by omega)
    simpa using this
  rw [hk] at hkm
  exact Bool.noConfusion hkm

/-- Witness for C6: stop requested from iteration 1 onwards on a three-hook
set. -/
theorem run_full_cycle_stop_witness :
    ∃ m, m ≤ 1 ∧ m ≤ 3 ∧
      run_full_cycle ⟨some ⟨10, 20, 5, none⟩, 50,
          [⟨30, 40, 5, none⟩, ⟨35, 40, 5, none⟩, ⟨40, 40, 5, none⟩]⟩ 3000
          (fun i => decide (1 ≤ i)) =
        (Event.cmd Cmd.m2000 ::
          ((List.range m).flatMap (pair_events ⟨some ⟨10, 20, 5, none⟩, 50,
              [⟨30, 40, 5, none⟩, ⟨35, 40, 5, none⟩, ⟨40, 40, 5, none⟩]⟩
              3000) ++
            [Event.cmd Cmd.m1003, Event.cmd Cmd.m1112]),
         false) :=
  run_full_cycle_stop ⟨some ⟨10, 20, 5, none⟩, 50,
      [⟨30, 40, 5, none⟩, ⟨35, 40, 5, none⟩, ⟨40, 40, 5, none⟩]⟩ 3000
    ⟨10, 20, 5, none⟩ (fun i => decide (1 ≤ i)) 1 rfl
    (fun a b hab ha => by
      simp only [decide_eq_true_eq] at ha ⊢
      omega)
    (by decide)

/-! ### C8 (corrected) -/

/-- If no poll in the window matches, the loop yields nothing. -/
lemma enc_poll_none (polls : Nat → Option String) :
    ∀ n i, (∀ j, j < n → encAttempt (polls (i + j)) = false) →
      (enc_poll polls i n).2 = none := by
  intro n
  induction n with
  | zero => intro i _; rfl
  | succ n ih =>
    intro i h
    have h0 : encAttempt (polls i) = false := by simpa using h 0 (by omega)
    cases hp : polls i with
    | none =>
      simp only [enc_poll, hp]
      exact ih (i + 1) (fun j hj => by
        rw [show i + 1 + j = i + (j + 1) from by omega]
        exact h (j + 1) (by omega))
    | some line =>
      have hm : encMatch (pyStrip line) = false := by
        simpa [encAttempt, hp] using h0
      simp only [enc_poll, hp, hm, Bool.false_eq_true, if_false]
      exact ih (i + 1) (fun j hj => by
        rw [show i + 1 + j = i + (j + 1) from by omega]
        exact h (j + 1) (by omega))

/-- The first matching poll in the window is returned, stripped. -/
lemma enc_poll_hit (polls : Nat → Option String) :
    ∀ n i k line, k < n →
      (∀ j, j < k → encAttempt (polls (i + j)) = false) →
      polls (i + k) = some line → encMatch (pyStrip line) = true →
      (enc_poll polls i n).2 = some (pyStrip line) := by
  intro n
  induction n with
  | zero => intro i k line hk; omega
  | succ n ih =>
    intro i k line hk hprev hpk hm
    cases k with
    | zero =>
      rw [Nat.add_zero] at hpk
      simp [enc_poll, hpk, hm]
    | succ k' =>
      have h0 : encAttempt (polls i) = false := by
        simpa using hprev 0 (by omega)
      cases hp : polls i with
      | none =>
        simp only [enc_poll, hp]
        refine ih (i + 1) k' line (by omega) (fun j hj => ?_) ?_ hm
        · rw [show i + 1 + j = i + (j + 1) from by omega]
          exact hprev (j + 1) (by omega)
        · rw [show i + 1 + k' = i + (k' + 1) from by omega]
          exact hpk
      | some l0 =>
        have hm0 : encMatch (pyStrip l0) = false := by
          simpa [encAttempt, hp] using h0
        simp only [enc_poll, hp, hm0, Bool.false_eq_true, if_false]
        refine ih (i + 1) k' line (by omega) (fun j hj => ?_) ?_ hm
        · rw [show i + 1 + j = i + (j + 1) from by omega]
          exact hprev (j + 1) (by omega)
        · rw [show i + 1 + k' = i + (k' + 1) from by omega]
          exact hpk

/-- C8 counterexample: when the 20 poll attempts are exhausted,
`read_encoder_position` returns `None` — not the string `"no data"` the
claim states. -/
theorem read_encoder_position_counterexample :
    (read_encoder_position [] (fun _ => none)).2 = none ∧
    (read_encoder_position [] (fun _ => none)).2 ≠ some "no data" := by
  exact ⟨by decide, by decide⟩

/-- C8 amended: `read_encoder_position` first drains all stale buffered
input, issues the `M893` query (with its sleeps), then polls for at most 20
read attempts, sleeping on empty reads, until a (stripped) line containing
`M894` or all of `X`, `Y`, `Z` is seen — returning that response string —
and returns `None` after exhausting all attempts. -/
theorem read_encoder_position_spec (stale : List String)
    (polls : Nat → Option String) :
    (read_encoder_position stale polls).1 =
      stale.map SerialEv.read ++
        SerialEv.sleep :: SerialEv.write "M893" :: SerialEv.sleep ::
          (enc_poll polls 0 20).1 ∧
    ((∀ j, j < 20 → encAttempt (polls j) = false) →
      (read_encoder_position stale polls).2 = none) ∧
    (∀ k line, k < 20 → (∀ j, j < k → encAttempt (polls j) = false) →
      polls k = some line → encMatch (pyStrip line) = true →
      (read_encoder_position stale polls).2 = some (pyStrip line)) := by
  refine ⟨rfl, fun h => ?_, fun k line hk hprev hpk hm => ?_⟩
  · exact enc_poll_none polls 20 0 (fun j hj => by simpa using h j hj)
  · exact enc_poll_hit polls 20 0 k line hk
      (fun j hj => by simpa using hprev j hj) (by simpa using hpk) hm

/-- Witness for C8's amended theorem: the first two polls are empty, the
third delivers an encoder response. -/
theorem read_encoder_position_spec_witness :
    (read_encoder_position ["old"]
        (fun k => if k = 2 then some " M894 X1 Y2 Z3 " else none)).2 =
      some "M894 X1 Y2 Z3" := by
  have h := (read_encoder_position_spec ["old"]
      (fun k => if k = 2 then some " M894 X1 Y2 Z3 " else none)).2.2
    2 " M894 X1 Y2 Z3 " (by decide) (by decide) (by decide) (by decide)
  rw [h]
  decide

/-! ### C9 (corrected) -/

/-- C9 counterexample: a stored pick whose encoder token is the non-empty
string `"junk"` (neither containing `X` nor starting with `M894`).  The
claim says revisiting issues the `M894` replay command; in fact
`move_to_encoder_position`'s guard rejects the token and `go_to_pick`
issues no command at all. -/
theorem go_to_pick_junk_token_counterexample :
    encoderToken ⟨1, 2, 3, some "junk"⟩ = some "junk" ∧
    go_to_pick ⟨some ⟨1, 2, 3, some "junk"⟩, 0, []⟩ 3000 = [] := by
  exact ⟨by decide, by decide⟩

/-- A truthy encoder token is exactly a non-empty stored token. -/
lemma encoderToken_some (p : Position) (s : String)
    (h : encoderToken p = some s) : s ≠ "" ∧ p.encoder = some s := by
  cases hpe : p.encoder with
  | none => simp [encoderToken, hpe] at h
  | some t =>
    simp only [encoderToken, hpe] at h
    by_cases ht : t = ""
    · simp [ht] at h
    · rw [if_neg ht] at h
      obtain rfl : t = s := Option.some.inj h
      exact ⟨ht, rfl⟩

/-- A valid encoder token makes `move_to_encoder_position` issue the replay
line (starting with `M894`), the `M400` wait, and the `M114` resync. -/
lemma move_to_encoder_position_valid (s : String) (hs : s ≠ "")
    (hok : (strHasChar s 'X' || strStarts s "M894") = true) :
    ∃ full, strStarts full "M894" = true ∧
      move_to_encoder_position s =
        ([Cmd.raw full, Cmd.m400, Cmd.m114], true) := by
  refine ⟨if strStarts (normWs s) "M894" then normWs s
          else "M894 " ++ normWs s, ?_, ?_⟩
  · by_cases h : strStarts (normWs s) "M894" = true
    · simp [h]
    · simp only [h, if_false]
      exact strStarts_m894_prepend (normWs s)
  · have hs' : (s != "") = true := by simpa using hs
    simp [move_to_encoder_position, hs', hok]

/-- A valid natural hook index resolves `go_to_hook` to the revisit of the
stored position. -/
lemma go_to_hook_nat (ts : TaughtSet) (f : Coord) (i : Nat) (p : Position)
    (hh : ts.hooks[i]? = some p) :
    go_to_hook ts f i =
      some (match encoderToken p with
            | some enc => (move_to_encoder_position enc).1
            | none => [Cmd.g1xyz f p.x p.y p.z]) := by
  have hi : i < ts.hooks.length := by
    by_contra hge
    rw [List.getElem?_eq_none (by omega)] at hh
    exact Option.noConfusion hh
  have h1 : (i : Int) < (ts.hooks.length : Int) := by omega
  have h2 : ¬ ((i : Int) < 0) := by omega
  simp only [go_to_hook, if_pos h1, h2, if_false]
  rw [if_pos (by omega : (0 : Int) ≤ (i : Int))]
  rw [show ((i : Int)).toNat = i from by omega, hh]

/-- C9 amended: a stored pick or hook `Position` with a non-empty encoder
token is revisited through `move_to_encoder_position` — which issues the
`M894 ...` replay command (never a Cartesian `G1`) exactly when the token
contains `X` or starts with `M894`, as every token captured from the arm
does, and otherwise issues no motion command at all; a `Position` without a
non-empty encoder token is revisited with a Cartesian `G1` move to its
stored x, y, z. -/
theorem go_to_encoder_priority (ts : TaughtSet) (f : Coord) :
    (∀ p, ts.pick = some p →
      (∀ s, encoderToken p = some s →
        go_to_pick ts f = (move_to_encoder_position s).1 ∧
        ((strHasChar s 'X' || strStarts s "M894") = true →
          ∃ full, strStarts full "M894" = true ∧
            go_to_pick ts f = [Cmd.raw full, Cmd.m400, Cmd.m114]) ∧
        ((strHasChar s 'X' || strStarts s "M894") = false →
          go_to_pick ts f = [])) ∧
      (encoderToken p = none →
        go_to_pick ts f = [Cmd.g1xyz f p.x p.y p.z])) ∧
    (∀ i : Nat, ∀ p, ts.hooks[i]? = some p →
      (∀ s, encoderToken p = some s →
        go_to_hook ts f i = some (move_to_encoder_position s).1) ∧
      (encoderToken p = none →
        go_to_hook ts f i = some [Cmd.g1xyz f p.x p.y p.z])) := by
  constructor
  · intro p hp
    constructor
    · intro s hsenc
      obtain ⟨hne, _⟩ := encoderToken_some p s hsenc
      have hgp : go_to_pick ts f = (move_to_encoder_position s).1 := by
        simp [go_to_pick, hp, hsenc]
      refine ⟨hgp, fun hok => ?_, fun hbad => ?_⟩
      · obtain ⟨full, hfull, hmv⟩ := move_to_encoder_position_valid s hne hok
        exact ⟨full, hfull, by rw [hgp, hmv]⟩
      · have hmv : move_to_encoder_position s = ([], false) := by
          simp [move_to_encoder_position, hbad]
        rw [hgp, hmv]
    · intro henc
      simp [go_to_pick, hp, henc]
  · intro i p hh
    refine ⟨fun s hsenc => ?_, fun henc => ?_⟩
    · rw [go_to_hook_nat ts f i p hh, hsenc]
    · rw [go_to_hook_nat ts f i p hh, henc]

/-- Witness for C9's amended theorem: an encoder-tagged pick goes through
the replay path, an untagged hook gets a Cartesian `G1`. -/
theorem go_to_encoder_priority_witness :
    go_to_pick ⟨some ⟨1, 2, 3, some "M894 X1 Y2 Z3"⟩, 50,
        [⟨30, 40, 5, none⟩]⟩ 3000 =
      (move_to_encoder_position "M894 X1 Y2 Z3").1 ∧
    go_to_hook ⟨some ⟨1, 2, 3, some "M894 X1 Y2 Z3"⟩, 50,
        [⟨30, 40, 5, none⟩]⟩ 3000 0 =
      some [Cmd.g1xyz 3000 30 40 5] := by
  have h := go_to_encoder_priority ⟨some ⟨1, 2, 3, some "M894 X1 Y2 Z3"⟩,
    50, [⟨30, 40, 5, none⟩]⟩ 3000
  exact ⟨((h.1 ⟨1, 2, 3, some "M894 X1 Y2 Z3"⟩ rfl).1 "M894 X1 Y2 Z3"
      (by decide)).1,
    (h.2 0 ⟨30, 40, 5, none⟩ (by decide)).2 (by decide)⟩

end DexArm
